import Mathlib

/-!
Verification of the agent-guard classification-and-remediation pipeline.

The definitions below are shallow embeddings of the JavaScript sources:
  * `templates/scripts/pre-commit-doc-check.cjs` — the pre-commit hook
    (`categorize`, `isDocFile`, the outcome branch of `main`) and the
    engine module (`sanitizePrompt`, `classifyError`, `parseApiResponse`,
    the changed-source-file selection stage of `buildApiPrompt`).
  * the audit log (`_audit-log.cjs`), whose implementation is not part of
    the sources at hand; it is modelled from the specification.

Strings are handled as `String` / `List Char`; JavaScript objects used as
string-keyed maps (`matches` in `categorize`) become association lists in
insertion order, matching the iteration order of `Object.entries` for the
non-numeric keys used here.
-/

set_option autoImplicit false
set_option maxRecDepth 16384

namespace AgentGuard

/--
A compiled category: the output of `buildTestFunction` applied to a config
descriptor (pre-commit-doc-check.cjs, lines 31-53).  The pattern kinds
`exact` / `startsWith` / `regex` all compile to a predicate `path → Bool`,
so a compiled category is its `id` together with that predicate.
-/
structure Category where
  id : String
  test : String → Bool

/--
The inner loop of `categorize` (lines 85-91): scan the compiled categories
in declaration order and return the id of the first whose predicate accepts
the file (`break; // first match wins`), or `none` when no category matches.
-/
def firstMatchId : List Category → String → Option String
  | [], _ => none
  | c :: rest, f => if c.test f then some c.id else firstMatchId rest f

/--
`if (!matches[cat.id]) matches[cat.id] = []; matches[cat.id].push(file)`
(lines 87-88) on the insertion-ordered association list that models the
`matches` object: append `f` to the entry keyed `i`, creating the entry at
the end when absent.
-/
def pushMatch : List (String × List String) → String → String → List (String × List String)
  | [], i, f => [(i, [f])]
  | (k, fs) :: rest, i, f =>
      if k = i then (k, fs ++ [f]) :: rest else (k, fs) :: pushMatch rest i f

/-- One iteration of the `for (const file of stagedFiles)` loop (lines 83-96). -/
def categorizeStep (cats : List Category) (acc : List (String × List String) × List String)
    (file : String) : List (String × List String) × List String :=
  match firstMatchId cats file with
  | some i => (pushMatch acc.1 i file, acc.2)
  | none => (acc.1, acc.2 ++ [file])

/-- The `for` loop of `categorize`, threading the mutable `matches`/`unmatched` pair. -/
def categorizeLoop (cats : List Category) (acc : List (String × List String) × List String) :
    List String → List (String × List String) × List String
  | [] => acc
  | file :: rest => categorizeLoop cats (categorizeStep cats acc file) rest

/--
`categorize(stagedFiles)` (pre-commit-doc-check.cjs, lines 79-99): partition
the staged files into `matches` (category id → matched paths, insertion
order) and `unmatched`.
-/
def categorize (cats : List Category) (stagedFiles : List String) :
    List (String × List String) × List String :=
  categorizeLoop cats ([], []) stagedFiles

/-- Total number of path occurrences recorded across all match lists. -/
def totalMatched (m : List (String × List String)) : Nat :=
  (m.map (fun e => e.2.length)).sum

/-- Occurrences of the path `p` recorded across all match lists. -/
def matchedCount (m : List (String × List String)) (p : String) : Nat :=
  (m.map (fun e => e.2.count p)).sum

/-- Concrete compiled category used to instantiate the first-match-wins theorem. -/
def catA : Category := ⟨"a", fun _ => true⟩

/-- Second concrete compiled category; its predicate also accepts every path. -/
def catB : Category := ⟨"b", fun _ => true⟩

/-- A two-element category list in which both categories accept every path. -/
def twoCats : List Category := [catA, catB]

/--
JavaScript `a || b` for a string-or-absent configuration value: the default
is used when the value is absent or the empty string (both falsy).
-/
def jsOrStr (o : Option String) (d : String) : String :=
  match o with
  | some s => if s = "" then d else s
  | none => d

/-- The configuration fields consulted by `isDocFile` (docsDir, agentConfigFile). -/
structure HookConfig where
  docsDir : Option String
  agentConfigFile : Option String

/--
`isDocFile` (pre-commit-doc-check.cjs, lines 71-75): a staged file is a
documentation file when it starts with the docs directory (default `docs/`)
or equals the agent-instruction file (default `.cursorrules`).
-/
def isDocFile (config : HookConfig) (f : String) : Bool :=
  f.startsWith (jsOrStr config.docsDir "docs/") || f = jsOrStr config.agentConfigFile ".cursorrules"

/-- The three observable outcomes of the pre-commit check. -/
inductive Outcome where
  | silent
  | positiveNote
  | remediation
  deriving DecidableEq

/--
The outcome branch of `main` (pre-commit-doc-check.cjs, lines 163-199):
empty staged list → silent early return; no category match
(`Object.keys(matches).length` is zero) → silent; a documentation file
staged alongside → positive note; otherwise the warning block with the
remediation prompt.
-/
def mainOutcome (cats : List Category) (config : HookConfig) (stagedFiles : List String) :
    Outcome :=
  if stagedFiles.length = 0 then .silent
  else if (categorize cats stagedFiles).1.length = 0 then .silent
  else if stagedFiles.any (isDocFile config) then .positiveNote
  else .remediation

/-- Match `pat` against the front of `s`; return the remainder on success. -/
def stripLit : List Char → List Char → Option (List Char)
  | [], s => some s
  | _ :: _, [] => none
  | a :: as, b :: bs => if a = b then stripLit as bs else none

/-- Does `pat` occur as a contiguous substring of `s`? (JavaScript `includes`.) -/
def containsSub (pat : List Char) : List Char → Bool
  | [] => pat.isEmpty
  | c :: rest => (stripLit pat (c :: rest)).isSome || containsSub pat rest

/-- The regex whitespace class (ASCII part of `\s`), as used by the response regex. -/
def isSpaceJS (c : Char) : Bool :=
  c = ' ' || c = '\t' || c = '\n' || c = '\r' || c = '\x0b' || c = '\x0c'

/-- Drop trailing whitespace characters. -/
def dropTrailingWs (l : List Char) : List Char :=
  (l.reverse.dropWhile isSpaceJS).reverse

/-- JavaScript `String.prototype.trim` on a character list. -/
def trimJS (l : List Char) : List Char :=
  dropTrailingWs (l.dropWhile isSpaceJS)

/-- `prompt.replace(/\0/g, "")`: remove every null byte. -/
def removeNullBytes (l : List Char) : List Char :=
  l.filter (fun c => c != '\x00')

/--
`.replace(/\r\n/g, "\n")`: left-to-right, non-overlapping replacement of
each CRLF pair by a single LF.
-/
def normalizeCRLF : List Char → List Char
  | [] => []
  | [c] => [c]
  | c :: c2 :: rest =>
      if c = '\r' ∧ c2 = '\n' then '\n' :: normalizeCRLF rest
      else c :: normalizeCRLF (c2 :: rest)

/--
`sanitizePrompt` (engine module, lines 282-285): remove null bytes, then
normalize CRLF line endings to LF.
-/
def sanitizePrompt (prompt : String) : String :=
  String.mk (normalizeCRLF (removeNullBytes prompt.data))

/-- JavaScript `toLowerCase` on the (ASCII) strings at hand. -/
def toLowerJS (s : String) : String :=
  String.mk (s.data.map Char.toLower)

/-- The three error classes produced by `classifyError`. -/
inductive ErrClass where
  | auth
  | offline
  | unknown
  deriving DecidableEq

/-- The authentication-marker test of `classifyError` (line 295). -/
def hasAuthMarker (lower : String) : Bool :=
  containsSub "not authenticated".data lower.data || containsSub "login".data lower.data ||
    containsSub "unauthorized".data lower.data

/-- The connectivity-marker test of `classifyError` (line 298). -/
def hasNetworkMarker (lower : String) : Bool :=
  containsSub "enotfound".data lower.data || containsSub "network".data lower.data ||
    containsSub "offline".data lower.data

/--
`classifyError` (engine module, lines 292-302): a missing or empty stderr
is `unknown`; otherwise the lowercased text is checked for authentication
markers first, then connectivity markers, defaulting to `unknown`.
-/
def classifyError (stderrText : Option String) : ErrClass :=
  match stderrText with
  | none => .unknown
  | some s =>
      if s = "" then .unknown
      else if hasAuthMarker (toLowerJS s) then .auth
      else if hasNetworkMarker (toLowerJS s) then .offline
      else .unknown

/-- The literal `<updated-file` opening the block regex. -/
def litOpen : List Char := "<updated-file".data

/-- The literal `path="` introducing the path attribute. -/
def litPathAttr : List Char := "path=\"".data

/-- The literal `</updated-file>` closing a block. -/
def litClose : List Char := "</updated-file>".data

/--
Split `s` at the first occurrence of the closing literal `</updated-file>`:
the characters before the occurrence and the remainder after it, or `none`
when the closing literal does not occur.
-/
def splitAtClose : List Char → Option (List Char × List Char)
  | [] => none
  | c :: rest =>
      match stripLit litClose (c :: rest) with
      | some after => some ([], after)
      | none =>
          match splitAtClose rest with
          | some (pre, after) => some (c :: pre, after)
          | none => none

/--
Attempt the block regex
`<updated-file\s+path="([^"]+)">\s*([\s\S]*?)\s*<\/updated-file>` at the
start of `s`.  On success: the path capture (trimmed, as
`match[1].trim()`), the content capture — the text between `">` and the
first closing literal with surrounding whitespace stripped, which is what
the greedy `\s*` and the lazy group produce after backtracking — and the
remainder of the input after the whole match.
-/
def matchBlockAt (s : List Char) : Option (String × String × List Char) :=
  match stripLit litOpen s with
  | none => none
  | some s1 =>
      let ws := s1.takeWhile isSpaceJS
      let s2 := s1.dropWhile isSpaceJS
      if ws.isEmpty then none
      else
        match stripLit litPathAttr s2 with
        | none => none
        | some s3 =>
            let pathChars := s3.takeWhile (fun c => c != '"')
            let s4 := s3.dropWhile (fun c => c != '"')
            if pathChars.isEmpty then none
            else
              match s4 with
              | '"' :: '>' :: s5 =>
                  let s6 := s5.dropWhile isSpaceJS
                  match splitAtClose s6 with
                  | none => none
                  | some (pre, after) =>
                      some (String.mk (trimJS pathChars), String.mk (dropTrailingWs pre), after)
              | _ => none

/--
The `regex.exec` loop with the `g` flag: find the leftmost match at or
after the current position, record its captures, resume after the match.
The fuel argument is initialized to the input length; every step consumes
at least one character, so the scan is exact.
-/
def extractBlocksAux : Nat → List Char → List (String × String)
  | 0, _ => []
  | _ + 1, [] => []
  | fuel + 1, c :: rest =>
      match matchBlockAt (c :: rest) with
      | some (p, content, after) => (p, content) :: extractBlocksAux fuel after
      | none => extractBlocksAux fuel rest

/-- All delimited blocks of the response text, in match order. -/
def extractBlocks (s : List Char) : List (String × String) :=
  extractBlocksAux s.length s

/-- Warning recorded for a block whose path is outside the allowlist. -/
def unexpectedFileWarning (p : String) : String :=
  "Ignoring unexpected file in response: " ++ p

/-- The warning recorded when no file updates were recognized. -/
def noMarkersWarning : String := "No <updated-file> markers found in API response."

/--
The `while ((match = regex.exec(...)))` body of `parseApiResponse`
(lines 375-384): keep a block whose path is in `expectedPaths`, record a
warning otherwise.
-/
def splitBlocksLoop (expectedPaths : List String)
    (acc : List (String × String) × List String) :
    List (String × String) → List (String × String) × List String
  | [] => acc
  | b :: rest =>
      if expectedPaths.contains b.1 then
        splitBlocksLoop expectedPaths (acc.1 ++ [b], acc.2) rest
      else
        splitBlocksLoop expectedPaths (acc.1, acc.2 ++ [unexpectedFileWarning b.1]) rest

/-- Allowlist filtering of all extracted blocks. -/
def splitBlocks (expectedPaths : List String) (blocks : List (String × String)) :
    List (String × String) × List String :=
  splitBlocksLoop expectedPaths ([], []) blocks

/--
`parseApiResponse(responseText, expectedPaths)` (engine module, lines
369-391): extract the delimited blocks, keep those whose (trimmed) path is
in the allowlist, record a warning for every other block, and add the
no-markers warning when no file was kept.
-/
def parseApiResponse (responseText : String) (expectedPaths : List String) :
    List (String × String) × List String :=
  let fw := splitBlocks expectedPaths (extractBlocks responseText.data)
  if fw.1.length = 0 then (fw.1, fw.2 ++ [noMarkersWarning]) else fw

/-- The `<no-changes-needed/>` sentinel checked by the engine invoker. -/
def noChangesSentinel : List Char := "<no-changes-needed/>".data

/-- The Scenario E response: one allowlisted block, one block outside the allowlist. -/
def scenarioEResponse : String :=
  "<updated-file path=\"docs/ARCHITECTURE.md\">\nUpdated architecture.\n</updated-file>\n<updated-file path=\"src/app.ts\">\nmalicious\n</updated-file>"


/-- A file visible to the filesystem: its `statSync` size and its contents. -/
structure FileInfo where
  size : Nat
  content : String
  deriving DecidableEq

/-- `maxFiles` (buildApiPrompt, line 434): embed at most 15 changed source files. -/
def maxFiles : Nat := 15

/-- `maxFileSizeBytes` (buildApiPrompt, line 435): 50 KB per file. -/
def maxFileSizeBytes : Nat := 50 * 1024

/--
The inner `for (const f of files)` loop of `buildApiPrompt` (lines 438-450)
with `fileCount` threaded: `break` once the cap is reached, skip files the
filesystem does not have, skip (never truncate) files whose size exceeds
`maxFileSizeBytes`, otherwise embed the full content and count it.  The
filesystem is abstracted as a partial map from the project-relative path
(the code joins it with `projectRoot` before `statSync`/`readFileSync`) to
size and contents.
-/
def embedFiles (fsys : String → Option FileInfo) (count : Nat) :
    List String → List (String × String) × Nat
  | [] => ([], count)
  | f :: rest =>
      if maxFiles ≤ count then ([], count)
      else
        match fsys f with
        | none => embedFiles fsys count rest
        | some info =>
            if info.size ≤ maxFileSizeBytes then
              ((f, info.content) :: (embedFiles fsys (count + 1) rest).1,
                (embedFiles fsys (count + 1) rest).2)
            else embedFiles fsys count rest

/-- The outer `for (const [catId, files] of Object.entries(matches))` loop. -/
def collectEntries (fsys : String → Option FileInfo) (count : Nat) :
    List (String × List String) → List (String × String) × Nat
  | [] => ([], count)
  | entry :: rest =>
      ((embedFiles fsys count entry.2).1 ++
          (collectEntries fsys (embedFiles fsys count entry.2).2 rest).1,
        (collectEntries fsys (embedFiles fsys count entry.2).2 rest).2)

/--
`sourceContents` as computed by `buildApiPrompt` (lines 431-451): changed
source files are embedded only in narrative (incremental) mode and only
when a match set is supplied.
-/
def buildApiPromptSourceContents (mode : String) (fsys : String → Option FileInfo)
    (matchesOpt : Option (List (String × List String))) : List (String × String) :=
  if mode = "narrative" then
    match matchesOpt with
    | some m => (collectEntries fsys 0 m).1
    | none => []
  else []

/-- A one-file filesystem used to instantiate the embedding-cap theorem. -/
def oneFileFs : String → Option FileInfo :=
  fun p => if p = "src/a.ts" then some ⟨3, "abc"⟩ else none

/-- `MAX_ENTRIES`, the audit log cap (500, asserted by test/audit-log.test.js). -/
def MAX_ENTRIES : Nat := 500

/--
Modelled from the spec: the audit-log implementation `_audit-log.cjs` is
missing from the sources at hand (only its tests are present).  Section 4.6
reads "read current log (tolerating a missing or corrupted file by treating
it as empty — corruption must never crash the run)".  The on-disk state is
`none` for a missing file, `some none` for a file whose JSON does not
parse, and `some (some l)` for a valid log `l`.
-/
def readLog {α : Type} (disk : Option (Option (List α))) : List α :=
  match disk with
  | none => []
  | some none => []
  | some (some l) => l

/--
Modelled from the spec: `logEntry` appends the new entry and truncates to
the most recent 500 entries if exceeded (section 4.6 and the AuditEntry
invariant of section 3: FIFO eviction of the oldest entries).  The result
is the new on-disk log contents.
-/
def logEntry {α : Type} (disk : Option (Option (List α))) (e : α) : List α :=
  if MAX_ENTRIES < (readLog disk ++ [e]).length then
    (readLog disk ++ [e]).drop ((readLog disk ++ [e]).length - MAX_ENTRIES)
  else readLog disk ++ [e]

end AgentGuard

namespace AgentGuard

theorem totalMatched_pushMatch (m : List (String × List String)) (i f : String) :
    totalMatched (pushMatch m i f) = totalMatched m + 1 := by
  induction m with
  | nil => simp [pushMatch, totalMatched]
  | cons e rest ih =>
      obtain ⟨k, fs⟩ := e
      by_cases h : k = i
      · simp [pushMatch, h, totalMatched]
        omega
      · simp [pushMatch, h, totalMatched] at ih ⊢
        omega

theorem matchedCount_pushMatch (m : List (String × List String)) (i f p : String) :
    matchedCount (pushMatch m i f) p = matchedCount m p + [f].count p := by
  induction m with
  | nil => simp [pushMatch, matchedCount]
  | cons e rest ih =>
      obtain ⟨k, fs⟩ := e
      by_cases h : k = i
      · simp [pushMatch, h, matchedCount, List.count_append]
        omega
      · simp [pushMatch, h, matchedCount, List.count_append] at ih ⊢
        omega

theorem categorizeLoop_total (cats : List Category) (files : List String) :
    ∀ acc : List (String × List String) × List String,
      totalMatched (categorizeLoop cats acc files).1 +
        (categorizeLoop cats acc files).2.length =
      totalMatched acc.1 + acc.2.length + files.length := by
  induction files with
  | nil => intro acc; simp [categorizeLoop]
  | cons file rest ih =>
      intro acc
      rw [categorizeLoop, ih]
      unfold categorizeStep
      cases h : firstMatchId cats file with
      | some i => simp [totalMatched_pushMatch]; omega
      | none => simp; omega

theorem categorizeLoop_count (cats : List Category) (files : List String) (p : String) :
    ∀ acc : List (String × List String) × List String,
      matchedCount (categorizeLoop cats acc files).1 p +
        (categorizeLoop cats acc files).2.count p =
      matchedCount acc.1 p + acc.2.count p + files.count p := by
  induction files with
  | nil => intro acc; simp [categorizeLoop]
  | cons file rest ih =>
      intro acc
      rw [categorizeLoop, ih]
      unfold categorizeStep
      cases h : firstMatchId cats file with
      | some i =>
          simp [matchedCount_pushMatch, List.count_cons]
          omega
      | none =>
          simp [List.count_append, List.count_cons]
          omega

/--
Claim C1: for every list of staged file paths (duplicates counted per
occurrence) and every compiled category list, `categorize` places each path
occurrence in exactly one place: the total number of matched path
occurrences plus the length of `unmatched` equals the length of the input,
and per path the occurrences in the input split exactly between the match
lists and `unmatched`.
-/
theorem categorize_totality (cats : List Category) (files : List String) :
    totalMatched (categorize cats files).1 + (categorize cats files).2.length
      = files.length ∧
    ∀ p : String,
      matchedCount (categorize cats files).1 p + (categorize cats files).2.count p
        = files.count p := by
  constructor
  · have h := categorizeLoop_total cats files ([], [])
    simpa [categorize, totalMatched] using h
  · intro p
    have h := categorizeLoop_count cats files p ([], [])
    simpa [categorize, matchedCount] using h

theorem firstMatchId_first (cats : List Category) (p : String) :
    ∀ (i : Nat) (hi : i < cats.length), (cats.get ⟨i, hi⟩).test p = true →
    ∃ k : Nat, ∃ hk : k < cats.length, k ≤ i ∧
      (cats.get ⟨k, hk⟩).test p = true ∧
      firstMatchId cats p = some (cats.get ⟨k, hk⟩).id ∧
      firstMatchId (cats.take (k + 1)) p = some (cats.get ⟨k, hk⟩).id := by
  induction cats with
  | nil => intro i hi _; exact absurd hi (by simp)
  | cons c rest ih =>
      intro i hi ht
      by_cases hc : c.test p = true
      · refine ⟨0, by simp, Nat.zero_le i, ?_, ?_, ?_⟩
        · simpa using hc
        · simp [firstMatchId, hc]
        · simp [firstMatchId, hc]
      · cases i with
        | zero => simp at ht; exact absurd ht hc
        | succ i2 =>
            have hi2 : i2 < rest.length := by simpa using hi
            have ht2 : (rest.get ⟨i2, hi2⟩).test p = true := by simpa using ht
            obtain ⟨k, hk, hki, hkt, hfm, hfmTake⟩ := ih i2 hi2 ht2
            refine ⟨k + 1, by simpa using hk, Nat.succ_le_succ hki, ?_, ?_, ?_⟩
            · simpa using hkt
            · simpa [firstMatchId, hc] using hfm
            · simpa [List.take_succ_cons, firstMatchId, hc] using hfmTake

theorem nodup_id_get_ne (cats : List Category) (hnodup : (cats.map Category.id).Nodup)
    (k j : Nat) (hk : k < cats.length) (hj : j < cats.length) (hkj : k ≠ j) :
    (cats.get ⟨k, hk⟩).id ≠ (cats.get ⟨j, hj⟩).id := by
  intro h
  apply hkj
  have hinj := List.nodup_iff_injective_get.mp hnodup
  have hk2 : k < (cats.map Category.id).length := by simpa using hk
  have hj2 : j < (cats.map Category.id).length := by simpa using hj
  have hmap : (cats.map Category.id).get ⟨k, hk2⟩ = (cats.map Category.id).get ⟨j, hj2⟩ := by
    simpa [List.get_eq_getElem, List.getElem_map] using h
  have := hinj hmap
  simpa using congrArg Fin.val this

/--
Claim C2: when two distinct categories (indices `i < j`, distinct ids) both
accept the path `p`, `categorize` records `p` only under the earliest
accepting category (index `k ≤ i`), never under the later category `j`, and
the result does not depend on any category after index `k` (later
categories are never consulted): truncating the list right after index `k`
yields the same classification.
-/
theorem first_match_wins (cats : List Category) (p : String) (i j : Nat)
    (hj : j < cats.length) (hij : i < j)
    (hi : (cats.get ⟨i, Nat.lt_trans hij hj⟩).test p = true)
    (hnodup : (cats.map Category.id).Nodup) :
    ∃ k : Nat, ∃ hk : k < cats.length, k ≤ i ∧
      (cats.get ⟨k, hk⟩).test p = true ∧
      (categorize cats [p]).1 = [((cats.get ⟨k, hk⟩).id, [p])] ∧
      (cats.get ⟨k, hk⟩).id ≠ (cats.get ⟨j, hj⟩).id ∧
      categorize (cats.take (k + 1)) [p] = categorize cats [p] := by
  obtain ⟨k, hk, hki, hkt, hfm, hfmTake⟩ :=
    firstMatchId_first cats p i (Nat.lt_trans hij hj) hi
  refine ⟨k, hk, hki, hkt, ?_, ?_, ?_⟩
  · simp [categorize, categorizeLoop, categorizeStep, hfm, pushMatch]
  · exact nodup_id_get_ne cats hnodup k j hk hj (by omega)
  · simp [categorize, categorizeLoop, categorizeStep, hfm, hfmTake, pushMatch]

/--
Witness for C2: both categories of `twoCats` accept `"x"`; the first
(index 0) wins.
-/
theorem first_match_wins_witness :
    ∃ k : Nat, ∃ hk : k < twoCats.length, k ≤ 0 ∧
      (twoCats.get ⟨k, hk⟩).test "x" = true ∧
      (categorize twoCats ["x"]).1 = [((twoCats.get ⟨k, hk⟩).id, ["x"])] ∧
      (twoCats.get ⟨k, hk⟩).id ≠ (twoCats.get ⟨1, by decide⟩).id ∧
      categorize (twoCats.take (k + 1)) ["x"] = categorize twoCats ["x"] :=
  first_match_wins twoCats "x" 0 1 (by decide) (by decide) (by decide) (by decide)

theorem pushMatch_ne_nil (m : List (String × List String)) (i f : String) :
    pushMatch m i f ≠ [] := by
  cases m with
  | nil => simp [pushMatch]
  | cons e rest =>
      obtain ⟨k, fs⟩ := e
      by_cases h : k = i <;> simp [pushMatch, h]

theorem categorizeLoop_fst_nil_iff (cats : List Category) (files : List String) :
    ∀ acc : List (String × List String) × List String,
      (categorizeLoop cats acc files).1 = [] ↔
        acc.1 = [] ∧ ∀ f ∈ files, firstMatchId cats f = none := by
  induction files with
  | nil => intro acc; simp [categorizeLoop]
  | cons file rest ih =>
      intro acc
      rw [categorizeLoop, ih]
      unfold categorizeStep
      cases h : firstMatchId cats file with
      | some i =>
          simp only []
          constructor
          · rintro ⟨habs, -⟩
            exact absurd habs (pushMatch_ne_nil acc.1 i file)
          · rintro ⟨-, hall⟩
            have := hall file (by simp)
            simp [h] at this
      | none =>
          simp only []
          constructor
          · rintro ⟨h1, hall⟩
            exact ⟨h1, fun f hf => by
              rcases List.mem_cons.mp hf with hf | hf
              · simpa [hf] using h
              · exact hall f hf⟩
          · rintro ⟨h1, hall⟩
            exact ⟨h1, fun f hf => hall f (List.mem_cons_of_mem _ hf)⟩

theorem categorize_fst_nil_iff (cats : List Category) (files : List String) :
    (categorize cats files).1 = [] ↔ ∀ f ∈ files, firstMatchId cats f = none := by
  rw [categorize, categorizeLoop_fst_nil_iff]
  simp

/--
Claim C4: the pre-commit check outcome is the total three-way function of
"some category matched a staged path" and "some staged path is a
documentation file": silent exactly when no category matches any staged
path; positive note exactly when some category matches and a documentation
file is staged; the remediation warning exactly when some category matches
and no documentation file is staged.
-/
theorem mainOutcome_three_way (cats : List Category) (config : HookConfig)
    (files : List String) :
    (mainOutcome cats config files = .silent ↔
      ∀ f ∈ files, firstMatchId cats f = none) ∧
    (mainOutcome cats config files = .positiveNote ↔
      (∃ f ∈ files, firstMatchId cats f ≠ none) ∧ ∃ f ∈ files, isDocFile config f = true) ∧
    (mainOutcome cats config files = .remediation ↔
      (∃ f ∈ files, firstMatchId cats f ≠ none) ∧ ∀ f ∈ files, isDocFile config f = false) := by
  have hnil := categorize_fst_nil_iff cats files
  unfold mainOutcome
  by_cases hempty : files.length = 0
  · have hfe : files = [] := List.length_eq_zero.mp hempty
    subst hfe
    simp
  · simp only [hempty, if_false]
    by_cases hmat : (categorize cats files).1.length = 0
    · have hmat2 : (categorize cats files).1 = [] := List.length_eq_zero.mp hmat
      have hall := hnil.mp hmat2
      rw [if_pos hmat]
      refine ⟨⟨fun _ => hall, fun _ => rfl⟩, ?_, ?_⟩
      · constructor
        · intro h; exact absurd h (by simp)
        · rintro ⟨⟨f, hf, hm⟩, -⟩
          exact absurd (hall f hf) hm
      · constructor
        · intro h; exact absurd h (by simp)
        · rintro ⟨⟨f, hf, hm⟩, -⟩
          exact absurd (hall f hf) hm
    · have hne : ¬((categorize cats files).1 = []) := by
        intro h; exact hmat (by simp [h])
      have hex : ∃ f ∈ files, firstMatchId cats f ≠ none := by
        by_contra hno
        push_neg at hno
        exact hne (hnil.mpr hno)
      simp only [hmat, if_false]
      by_cases hdoc : files.any (isDocFile config) = true
      · have hdocex : ∃ f ∈ files, isDocFile config f = true := by
          simpa using List.any_eq_true.mp hdoc
        simp only [hdoc, if_true]
        refine ⟨?_, ?_, ?_⟩
        · constructor
          · intro h; exact absurd h (by simp)
          · intro hall
            obtain ⟨f, hf, hm⟩ := hex
            exact absurd (hall f hf) hm
        · simp [hex, hdocex]
        · constructor
          · intro h; exact absurd h (by simp)
          · rintro ⟨-, hall⟩
            obtain ⟨f, hf, hd⟩ := hdocex
            rw [hall f hf] at hd
            exact absurd hd (by simp)
      · have hdocall : ∀ f ∈ files, isDocFile config f = false := by
          intro f hf
          by_contra hne2
          exact hdoc (List.any_eq_true.mpr ⟨f, hf, by simpa using hne2⟩)
        simp only [hdoc, if_false]
        refine ⟨?_, ?_, ?_⟩
        · constructor
          · intro h; exact absurd h (by simp)
          · intro hall
            obtain ⟨f, hf, hm⟩ := hex
            exact absurd (hall f hf) hm
        · constructor
          · intro h; exact absurd h (by simp)
          · rintro ⟨-, ⟨f, hf, hd⟩⟩
            rw [hdocall f hf] at hd
            exact absurd hd (by simp)
        · exact ⟨fun _ => ⟨hex, hdocall⟩, fun _ => rfl⟩


theorem normalizeCRLF_of_no_cr (l : List Char) (h : ∀ c ∈ l, c ≠ '\r') :
    normalizeCRLF l = l := by
  induction l with
  | nil => simp [normalizeCRLF]
  | cons c rest ih =>
      cases rest with
      | nil => simp [normalizeCRLF]
      | cons c2 rest2 =>
          have hc : c ≠ '\r' := h c (by simp)
          have htail : normalizeCRLF (c2 :: rest2) = c2 :: rest2 :=
            ih (fun x hx => h x (List.mem_cons_of_mem _ hx))
          simp only [normalizeCRLF]
          rw [if_neg (fun hand => hc hand.1), htail]

/--
Claim C8: sanitization is idempotent on its own image as characterized by
the spec: a prompt that contains no null bytes and no carriage returns
(LF-only line endings) is returned unchanged by `sanitizePrompt`.
-/
theorem sanitizePrompt_idempotent_on_clean (s : String)
    (h : ∀ c ∈ s.data, c ≠ '\x00' ∧ c ≠ '\r') : sanitizePrompt s = s := by
  have h1 : removeNullBytes s.data = s.data := by
    apply List.filter_eq_self.mpr
    intro c hc
    simpa [bne_iff_ne] using (h c hc).1
  have h2 : normalizeCRLF s.data = s.data :=
    normalizeCRLF_of_no_cr s.data (fun c hc => (h c hc).2)
  unfold sanitizePrompt
  rw [h1, h2]

/-- Witness for C8: a null-free, LF-only prompt passes through unchanged. -/
theorem sanitizePrompt_witness :
    ((∀ c ∈ ("hello\nworld" : String).data, c ≠ '\x00' ∧ c ≠ '\r') ∧
      sanitizePrompt "hello\nworld" = "hello\nworld") :=
  ⟨by decide, sanitizePrompt_idempotent_on_clean "hello\nworld" (by decide)⟩

/--
Claim C10: `classifyError` is total and deterministic — every input yields
exactly one of auth, offline, unknown; a missing or empty stderr yields
unknown; and whenever the lowercased input carries both an authentication
marker and a connectivity marker, the authentication class wins.
-/
theorem classifyError_total_and_auth_first :
    (∀ o : Option String, classifyError o = .auth ∨ classifyError o = .offline ∨
      classifyError o = .unknown) ∧
    classifyError none = .unknown ∧
    classifyError (some "") = .unknown ∧
    ∀ s : String, hasAuthMarker (toLowerJS s) = true →
      hasNetworkMarker (toLowerJS s) = true → classifyError (some s) = .auth := by
  refine ⟨?_, rfl, rfl, ?_⟩
  · intro o
    cases h : classifyError o with
    | auth => exact Or.inl rfl
    | offline => exact Or.inr (Or.inl rfl)
    | unknown => exact Or.inr (Or.inr rfl)
  · intro s hA hN
    have hs : s ≠ "" := by
      intro he
      rw [he] at hA
      have hfalse : hasAuthMarker (toLowerJS "") = false := by decide
      rw [hfalse] at hA
      exact absurd hA (by decide)
    simp [classifyError, hs, hA]

/-- Witness for C10: both marker families present; auth wins. -/
theorem classifyError_witness :
    hasAuthMarker (toLowerJS "unauthorized network") = true ∧
    hasNetworkMarker (toLowerJS "unauthorized network") = true ∧
    classifyError (some "unauthorized network") = .auth :=
  ⟨by decide, by decide,
    classifyError_total_and_auth_first.2.2.2 "unauthorized network" (by decide) (by decide)⟩


theorem splitBlocksLoop_allowlist (expectedPaths : List String) :
    ∀ (blocks : List (String × String)) (acc : List (String × String) × List String),
      (∀ f ∈ acc.1, f.1 ∈ expectedPaths) →
      ∀ f ∈ (splitBlocksLoop expectedPaths acc blocks).1, f.1 ∈ expectedPaths := by
  intro blocks
  induction blocks with
  | nil => intro acc hacc; simpa [splitBlocksLoop] using hacc
  | cons b rest ih =>
      intro acc hacc
      rw [splitBlocksLoop]
      by_cases h : expectedPaths.contains b.1
      · rw [if_pos h]
        apply ih
        intro f hf
        rcases List.mem_append.mp hf with hf | hf
        · exact hacc f hf
        · have hb : f = b := by simpa using hf
          subst hb
          simpa using h
      · rw [if_neg h]
        exact ih _ hacc

/--
Claim C3: `parseApiResponse` never returns a file whose path is outside the
supplied allowlist, for every raw response text; and on the Scenario E
response (one allowlisted block, one block targeting `src/app.ts` outside
the allowlist) exactly the allowed file is returned together with exactly
one warning about the disallowed path.
-/
theorem parseApiResponse_allowlist :
    (∀ (r : String) (e : List String), ∀ f ∈ (parseApiResponse r e).1, f.1 ∈ e) ∧
    parseApiResponse scenarioEResponse ["docs/ARCHITECTURE.md", "README.md"] =
      ([("docs/ARCHITECTURE.md", "Updated architecture.")],
        ["Ignoring unexpected file in response: src/app.ts"]) := by
  constructor
  · intro r e f hf
    have hbase : ∀ g ∈ (splitBlocks e (extractBlocks r.data)).1, g.1 ∈ e :=
      splitBlocksLoop_allowlist e (extractBlocks r.data) ([], []) (by simp)
    unfold parseApiResponse at hf
    by_cases h : (splitBlocks e (extractBlocks r.data)).1.length = 0
    · rw [if_pos h] at hf
      exact hbase f hf
    · rw [if_neg h] at hf
      exact hbase f hf
  · decide

/--
Witness for C3: in Scenario E the returned architecture file is a member of
the result, and the allowlist theorem places its path inside the allowlist.
-/
theorem parseApiResponse_allowlist_witness :
    ("docs/ARCHITECTURE.md", "Updated architecture.") ∈
      (parseApiResponse scenarioEResponse ["docs/ARCHITECTURE.md", "README.md"]).1 ∧
    ("docs/ARCHITECTURE.md" : String) ∈ ["docs/ARCHITECTURE.md", "README.md"] :=
  ⟨by decide,
    parseApiResponse_allowlist.1 scenarioEResponse ["docs/ARCHITECTURE.md", "README.md"]
      ("docs/ARCHITECTURE.md", "Updated architecture.") (by decide)⟩

/--
Claim C7: `parseApiResponse` is a total function of its input (the model is
a Lean function, mirroring the raise-free JavaScript); whenever it keeps
zero files and the no-changes sentinel is absent from the input, it returns
zero files together with the warning that no recognizable update markers
were found.
-/
theorem parseApiResponse_no_markers (r : String) (e : List String)
    (hfiles : (parseApiResponse r e).1 = [])
    (hsent : containsSub noChangesSentinel r.data = false) :
    (parseApiResponse r e).1 = [] ∧ noMarkersWarning ∈ (parseApiResponse r e).2 := by
  refine ⟨hfiles, ?_⟩
  unfold parseApiResponse at hfiles ⊢
  by_cases h : (splitBlocks e (extractBlocks r.data)).1.length = 0
  · rw [if_pos h]
    simp
  · rw [if_neg h] at hfiles
    exact absurd (by simp [hfiles]) h

/-- Witness for C7: plain text with no markers and no sentinel. -/
theorem parseApiResponse_no_markers_witness :
    (parseApiResponse "hello" []).1 = [] ∧
    containsSub noChangesSentinel ("hello" : String).data = false ∧
    noMarkersWarning ∈ (parseApiResponse "hello" []).2 := by
  refine ⟨by decide, by decide, ?_⟩
  exact (parseApiResponse_no_markers "hello" [] (by decide) (by decide)).2


theorem embedFiles_spec (fsys : String → Option FileInfo) (files : List String) :
    ∀ count : Nat,
      (embedFiles fsys count files).2 = count + (embedFiles fsys count files).1.length ∧
      (count ≤ maxFiles → (embedFiles fsys count files).2 ≤ maxFiles) ∧
      ∀ pc ∈ (embedFiles fsys count files).1,
        ∃ info, fsys pc.1 = some info ∧ info.size ≤ maxFileSizeBytes ∧ pc.2 = info.content := by
  induction files with
  | nil => intro count; simp [embedFiles]
  | cons f rest ih =>
      intro count
      by_cases hcap : maxFiles ≤ count
      · rw [embedFiles, if_pos hcap]
        exact ⟨by simp, fun h => h, by simp⟩
      · rw [embedFiles, if_neg hcap]
        cases hf : fsys f with
        | none => exact ih count
        | some info =>
            by_cases hsz : info.size ≤ maxFileSizeBytes
            · simp only [if_pos hsz]
              obtain ⟨h1, h2, h3⟩ := ih (count + 1)
              refine ⟨?_, ?_, ?_⟩
              · simp only [List.length_cons]
                omega
              · intro hc
                exact h2 (by omega)
              · intro pc hpc
                rcases List.mem_cons.mp hpc with hpc | hpc
                · exact ⟨info, by rw [hpc]; exact hf, hsz, by rw [hpc]⟩
                · exact h3 pc hpc
            · simp only [if_neg hsz]
              exact ih count

theorem collectEntries_spec (fsys : String → Option FileInfo)
    (entries : List (String × List String)) :
    ∀ count : Nat,
      (collectEntries fsys count entries).2 =
        count + (collectEntries fsys count entries).1.length ∧
      (count ≤ maxFiles → (collectEntries fsys count entries).2 ≤ maxFiles) ∧
      ∀ pc ∈ (collectEntries fsys count entries).1,
        ∃ info, fsys pc.1 = some info ∧ info.size ≤ maxFileSizeBytes ∧ pc.2 = info.content := by
  induction entries with
  | nil => intro count; simp [collectEntries]
  | cons entry rest ih =>
      intro count
      obtain ⟨e1, e2, e3⟩ := embedFiles_spec fsys entry.2 count
      obtain ⟨r1, r2, r3⟩ := ih (embedFiles fsys count entry.2).2
      rw [collectEntries]
      refine ⟨?_, ?_, ?_⟩
      · simp only [List.length_append]
        omega
      · intro hc
        exact r2 (e2 hc)
      · intro pc hpc
        rcases List.mem_append.mp hpc with hpc | hpc
        · exact e3 pc hpc
        · exact r3 pc hpc

/--
Claim C9: in narrative (incremental) mode `buildApiPrompt` embeds at most
15 changed source files across all categories, and every embedded file has
a filesystem entry whose size is within the 50 KB cap and is embedded with
its full content (oversized files are omitted entirely, never truncated).
-/
theorem buildApiPrompt_embedding_caps (fsys : String → Option FileInfo)
    (m : List (String × List String)) :
    (buildApiPromptSourceContents "narrative" fsys (some m)).length ≤ maxFiles ∧
    ∀ pc ∈ buildApiPromptSourceContents "narrative" fsys (some m),
      ∃ info, fsys pc.1 = some info ∧ info.size ≤ maxFileSizeBytes ∧ pc.2 = info.content := by
  obtain ⟨h1, h2, h3⟩ := collectEntries_spec fsys m 0
  have hmode : buildApiPromptSourceContents "narrative" fsys (some m) =
      (collectEntries fsys 0 m).1 := by
    simp [buildApiPromptSourceContents]
  rw [hmode]
  refine ⟨?_, h3⟩
  have hb := h2 (by simp [maxFiles])
  omega

/--
Witness for C9: a one-entry match set over a one-file filesystem; the
embedded file carries its full 3-byte content.
-/
theorem buildApiPrompt_embedding_caps_witness :
    ("src/a.ts", "abc") ∈
      buildApiPromptSourceContents "narrative" oneFileFs (some [("cat", ["src/a.ts"])]) ∧
    ∃ info, oneFileFs "src/a.ts" = some info ∧ info.size ≤ maxFileSizeBytes ∧
      "abc" = info.content :=
  ⟨by decide,
    (buildApiPrompt_embedding_caps oneFileFs [("cat", ["src/a.ts"])]).2
      ("src/a.ts", "abc") (by decide)⟩

/--
Claim C5: appending to an audit log already holding exactly 500 entries
yields exactly 500 entries, with the new entry last and the single oldest
entry evicted; and no append ever produces a log exceeding `MAX_ENTRIES`.
-/
theorem auditLog_cap {α : Type} (l : List α) (e : α) (h : l.length = MAX_ENTRIES) :
    (logEntry (some (some l)) e).length = MAX_ENTRIES ∧
    logEntry (some (some l)) e = l.tail ++ [e] ∧
    (logEntry (some (some l)) e).getLast? = some e ∧
    ∀ (disk : Option (Option (List α))) (x : α), (logEntry disk x).length ≤ MAX_ENTRIES := by
  have hread : readLog (some (some l)) = l := rfl
  have heq : logEntry (some (some l)) e = l.tail ++ [e] := by
    unfold logEntry
    rw [hread, if_pos (by simp [h])]
    have hdrop : (l ++ [e]).length - MAX_ENTRIES = 1 := by simp [h]
    rw [hdrop, List.drop_append_eq_append_drop]
    simp [h, List.drop_one, MAX_ENTRIES]
  refine ⟨?_, heq, ?_, ?_⟩
  · rw [heq]
    have : l.tail.length = l.length - 1 := List.length_tail l
    simp [this, h, MAX_ENTRIES]
  · rw [heq]
    exact List.getLast?_concat _
  · intro disk x
    unfold logEntry
    by_cases hc : MAX_ENTRIES < (readLog disk ++ [x]).length
    · rw [if_pos hc]
      simp only [List.length_drop]
      omega
    · rw [if_neg hc]
      omega

/-- Witness for C5: a log of exactly 500 entries, then one append. -/
theorem auditLog_cap_witness :
    (List.replicate 500 (0 : Nat)).length = MAX_ENTRIES ∧
    ((logEntry (some (some (List.replicate 500 (0 : Nat)))) 1).length = MAX_ENTRIES ∧
      logEntry (some (some (List.replicate 500 (0 : Nat)))) 1 =
        (List.replicate 500 (0 : Nat)).tail ++ [1] ∧
      (logEntry (some (some (List.replicate 500 (0 : Nat)))) 1).getLast? = some 1 ∧
      ∀ (disk : Option (Option (List Nat))) (x : Nat),
        (logEntry disk x).length ≤ MAX_ENTRIES) :=
  ⟨by simp [MAX_ENTRIES],
    auditLog_cap (List.replicate 500 (0 : Nat)) 1 (by simp [MAX_ENTRIES])⟩

/--
Claim C6: appending over a missing or JSON-corrupted on-disk log never
raises (the model is a total function) and treats the broken state as an
empty log: afterwards the log holds exactly the one new entry.
-/
theorem auditLog_self_healing {α : Type} (e : α) :
    logEntry (none : Option (Option (List α))) e = [e] ∧
    logEntry (some (none : Option (List α))) e = [e] := by
  constructor <;>
  · unfold logEntry
    rw [if_neg (by norm_num [readLog, MAX_ENTRIES])]
    rfl

end AgentGuard
